import Mathlib

set_option maxRecDepth 8000

/-!
Verification development for the UniProt E/Q ratio ranking app (src/app.py).

The script is embedded shallowly: Python strings become `List Char`, the
numeric values (Python floats produced by `/`) become exact rationals `ℚ`,
fallible Python code (uncaught exceptions) returns `Except PyErr`.  The
external collaborators are modelled at their interface: an identifier's two
HTTP responses become a `FetchResult` record, the parsed JSON metadata
document becomes a `PyVal` tree, and the pandas calls of line 103-104 are
modelled from pandas' documented behaviour (see `rank_rows` and
`rank_rows_np` below).
-/

/-- Characters stripped by Python `str.strip()`: the full `str` whitespace
set, i.e. the ASCII control whitespace U+0009..U+000D and U+001C..U+001F,
the space, NEL and no-break space, and the Unicode space separators and
line/paragraph separators. -/
def pySpace (c : Char) : Bool :=
  c = ' ' || c = '\t' || c = '\n' || c = '\r' || c = '\x0b' || c = '\x0c' ||
  c = '\x1c' || c = '\x1d' || c = '\x1e' || c = '\x1f' || c = '\x85' ||
  c = '\xa0' || c = '\u1680' || ('\u2000' ≤ c && c ≤ '\u200a') ||
  c = '\u2028' || c = '\u2029' || c = '\u202f' || c = '\u205f' || c = '\u3000'

/-- Python `s.strip()`: remove whitespace from both ends of the string. -/
def pyStrip (l : List Char) : List Char :=
  ((l.dropWhile pySpace).reverse.dropWhile pySpace).reverse

/-- Auxiliary for Python `s.split(",")`: `acc` holds the current piece reversed. -/
def pySplitCommaAux : List Char → List Char → List (List Char)
  | [], acc => [acc.reverse]
  | c :: rest, acc =>
      if c = ',' then acc.reverse :: pySplitCommaAux rest []
      else pySplitCommaAux rest (c :: acc)

/-- Python `s.split(",")`: split on every comma; `"".split(",") = [""]`. -/
def pySplitComma (l : List Char) : List (List Char) := pySplitCommaAux l []

/-- Line 51 of app.py: `ac_list = [x.strip() for x in ac_input.split(",") if x.strip()]`.
A Python string is truthy exactly when it is non-empty. -/
def ac_list (input : List Char) : List (List Char) :=
  ((pySplitComma input).map pyStrip).filter (fun x => !x.isEmpty)

/-- Result record of `analyze_sequence` (the tuple
`(ratio, total, perc_e, perc_q)` returned on line 62 of app.py, with named
components).  `none` models Python `None`. -/
structure CompositionStats where
  ratioValue : Option ℚ
  total : Nat
  percE : Option ℚ
  percQ : Option ℚ
deriving DecidableEq, Repr

/-- Lines 55-62 of app.py:

```text
e = seq.count("E"); q = seq.count("Q"); total = len(seq)
ratio = e / q if q != 0 else None
perc_e = (e / total) * 100 if total > 0 else None
perc_q = (q / total) * 100 if total > 0 else None
```

Python float division is modelled by exact division in `ℚ`. -/
def analyze_sequence (seq : List Char) : CompositionStats :=
  let e := seq.count 'E'
  let q := seq.count 'Q'
  let total := seq.length
  { ratioValue := if q ≠ 0 then some ((e : ℚ) / (q : ℚ)) else none
    total := total
    percE := if total > 0 then some ((e : ℚ) / (total : ℚ) * 100) else none
    percQ := if total > 0 then some ((q : ℚ) / (total : ℚ) * 100) else none }

/-- Line-boundary characters recognised by Python `str.splitlines()`
(ASCII/Latin-1 and the two Unicode separators; `\r\n` is treated as one
boundary by `pySplitlinesAux`). -/
def pyLineBreak (c : Char) : Bool :=
  c = '\n' || c = '\r' || c = '\x0b' || c = '\x0c' ||
  c = '\x1c' || c = '\x1d' || c = '\x1e' || c = '\x85' ||
  c = '\u2028' || c = '\u2029'

/-- Auxiliary for Python `str.splitlines()`: `acc` holds the current line
reversed, and the flag records that the previous character was a `'\r'`
boundary, so that an immediately following `'\n'` is absorbed into the same
`"\r\n"` boundary.  A trailing line boundary does not open a new empty
line. -/
def pySplitlinesAux : List Char → List Char → Bool → List (List Char)
  | [], acc, _ => if acc.isEmpty then [] else [acc.reverse]
  | c :: rest, acc, afterCr =>
      if afterCr && c = '\n' then pySplitlinesAux rest acc false
      else if pyLineBreak c then
        acc.reverse :: pySplitlinesAux rest [] (c = '\r')
      else pySplitlinesAux rest (c :: acc) false

/-- Python `s.splitlines()`. -/
def pySplitlines (l : List Char) : List (List Char) := pySplitlinesAux l [] false

/-- Python `l.startswith(">")` on the raw (unstripped) line. -/
def startsGt : List Char → Bool
  | '>' :: _ => true
  | _ => false

/-- Lines 73-74 of app.py:

```text
lines = fasta_response.text.splitlines()
sequence = "".join([l.strip() for l in lines if not l.startswith(">")])
``` -/
def extract_sequence (raw : List Char) : List Char :=
  (((pySplitlines raw).filter (fun l => !startsGt l)).map pyStrip).flatten

/-- Uncaught Python exceptions that the embedded code can raise. -/
inductive PyErr where
  | indexError
  | attributeError
  | typeError
  | keyError
deriving DecidableEq, Repr

/-- A parsed JSON document (the value of `meta_response.json()`), viewed
through the operations app.py performs on it: `dict.get`, list indexing. -/
inductive PyVal where
  | str : List Char → PyVal
  | num : ℚ → PyVal
  | list : List PyVal → PyVal
  | dict : List (List Char × PyVal) → PyVal

/-- First value bound to a key in an association list (a Python dict has each
key at most once, so this is dict lookup). -/
def lookupKey (kvs : List (List Char × PyVal)) (k : List Char) : Option PyVal :=
  match kvs with
  | [] => none
  | (k1, v) :: rest => if k1 = k then some v else lookupKey rest k

/-- Python `obj.get(key, default)`: defined on dicts only; on any other value
the attribute access raises `AttributeError`.  A missing key yields the
default. -/
def pyGet (v : PyVal) (key : List Char) (dflt : PyVal) : Except PyErr PyVal :=
  match v with
  | .dict kvs => .ok ((lookupKey kvs key).getD dflt)
  | _ => .error .attributeError

/-- Python `obj[0]`: first element of a list or string; an empty list or
string raises `IndexError`, a dict looks `0` up as a key (`KeyError` here,
since the metadata dicts have string keys), a number raises `TypeError`. -/
def pyIndex0 (v : PyVal) : Except PyErr PyVal :=
  match v with
  | .list (x :: _) => .ok x
  | .list [] => .error .indexError
  | .str (c :: _) => .ok (.str [c])
  | .str [] => .error .indexError
  | .dict _ => .error .keyError
  | .num _ => .error .typeError

/-- Lines 80-82 of app.py (the metadata extraction, run when the metadata
response has status 200):

```text
entry_name = data.get("uniProtkbId", ac)
protein_name = data.get("proteinDescription", {}).get("recommendedName", {})
                   .get("fullName", {}).get("value", "N/A")
description = data.get("comments", [{}])[0].get("texts", [{}])[0].get("value", "")
```

Any exception raised here is uncaught and propagates out of the per-identifier
loop. -/
def extract_metadata (ac : List Char) (data : PyVal) :
    Except PyErr (PyVal × PyVal × PyVal) := do
  let entryName ← pyGet data ("uniProtkbId".toList) (.str ac)
  let d1 ← pyGet data ("proteinDescription".toList) (.dict [])
  let d2 ← pyGet d1 ("recommendedName".toList) (.dict [])
  let d3 ← pyGet d2 ("fullName".toList) (.dict [])
  let proteinName ← pyGet d3 ("value".toList) (.str ("N/A".toList))
  let c ← pyGet data ("comments".toList) (.list [.dict []])
  let c0 ← pyIndex0 c
  let t ← pyGet c0 ("texts".toList) (.list [.dict []])
  let t0 ← pyIndex0 t
  let descr ← pyGet t0 ("value".toList) (.str [])
  .ok (entryName, proteinName, descr)

/-- What the two HTTP requests for one identifier returned: the FASTA
response (status and text) and the metadata response (status and parsed JSON
body; the body is only consulted when its status is 200). -/
structure FetchResult where
  fastaStatus : Nat
  fastaText : List Char
  metaStatus : Nat
  metaJson : PyVal

/-- One element of `ratio_results` (the dict literal appended on lines
89-98 of app.py). -/
structure Row where
  entryName : PyVal
  proteinName : PyVal
  description : PyVal
  lengthAA : Nat
  percE : Option ℚ
  percQ : Option ℚ
  ratioValue : Option ℚ
  uniprotLink : List Char

instance : Inhabited Row :=
  ⟨{ entryName := .str [], proteinName := .str [], description := .str [],
     lengthAA := 0, percE := none, percQ := none, ratioValue := none,
     uniprotLink := [] }⟩

/-- The warning text of line 100 of app.py. -/
def warnMsg (ac : List Char) : List Char :=
  "⚠️ Invalid UniProt code or sequence not found: ".toList ++ ac

/-- The success criterion of line 72 of app.py:
`fasta_response.status_code == 200 and ">" in fasta_response.text`. -/
def isFound (fr : FetchResult) : Prop :=
  fr.fastaStatus = 200 ∧ fr.fastaText.contains '>' = true

instance (fr : FetchResult) : Decidable (isFound fr) :=
  inferInstanceAs (Decidable (_ ∧ _))

/-- One iteration of the per-identifier loop (lines 65-100 of app.py): either
a row is appended (`some row`), or the warning of line 100 is shown
(`some warning`), or an uncaught exception escapes the loop. -/
def process_ac (ac : List Char) (fr : FetchResult) :
    Except PyErr (Option Row × Option (List Char)) :=
  if isFound fr then do
    let seq := extract_sequence fr.fastaText
    let stats := analyze_sequence seq
    let meta ←
      if fr.metaStatus = 200 then extract_metadata ac fr.metaJson
      else .ok (.str ac, .str ("N/A".toList), .str ("N/A".toList))
    .ok (some
      { entryName := meta.1
        proteinName := meta.2.1
        description := meta.2.2
        lengthAA := stats.total
        percE := stats.percE
        percQ := stats.percQ
        ratioValue := stats.ratioValue
        uniprotLink :=
          "https://www.uniprot.org/uniprotkb/".toList ++ ac ++ "/entry".toList },
      none)
  else .ok (none, some (warnMsg ac))

/-- The whole `for ac in ac_list` loop: rows and warnings in loop order; the
first uncaught exception aborts every later iteration. -/
def process_all :
    List (List Char × FetchResult) → Except PyErr (List Row × List (List Char))
  | [] => .ok ([], [])
  | (ac, fr) :: rest => do
    let rw ← process_ac ac fr
    let rest2 ← process_all rest
    .ok (rw.1.toList ++ rest2.1, rw.2.toList ++ rest2.2)

/-- Ratio sort key of a row that survived `dropna` (its ratio is `some q`). -/
def ratioKey (r : Row) : ℚ := r.ratioValue.getD 0

/-- Row ordering used by `sort_values(by="E/Q ratio", ascending=True)`. -/
def rowLe (a b : Row) : Prop := ratioKey a ≤ ratioKey b

instance : DecidableRel rowLe :=
  fun a b => inferInstanceAs (Decidable (ratioKey a ≤ ratioKey b))

instance : IsTotal Row rowLe := ⟨fun a b => le_total (ratioKey a) (ratioKey b)⟩

instance : IsTrans Row rowLe := ⟨fun _ _ _ h1 h2 => le_trans h1 h2⟩

/-- Lines 103-104 of app.py:

```text
df = pd.DataFrame(ratio_results)
df = df.dropna(subset=["E/Q ratio"]).sort_values(by="E/Q ratio", ascending=True)
```

modelled from pandas' documented behaviour.  `pd.DataFrame([])` has no
columns, so `dropna(subset=["E/Q ratio"])` raises `KeyError` whenever
`ratio_results` is empty; otherwise `dropna` keeps exactly the rows whose
ratio is not `None`, and `sort_values` reorders them ascending by ratio.
`sort_values` is `df.take(np.argsort(column, kind="quicksort"))`; numpy's
quicksort runs its insertion sort on segments of at most 16 elements, so for
tables of at most 16 rows the sort is exactly a stable insertion sort, which
this definition uses (`List.insertionSort` inserts each element before the
first strictly greater one, hence is stable; equal-key stable sorts agree).
The tie behaviour of larger tables follows numpy's introsort, embedded
separately as `npAqsort`/`rank_rows_np` below. -/
def rank_rows (rows : List Row) : Except PyErr (List Row) :=
  if rows.isEmpty then .error .keyError
  else .ok (List.insertionSort rowLe (rows.filter (fun r => r.ratioValue.isSome)))

/-- The run given the fetched items: the loop, then the ranking stage. -/
def run_items (items : List (List Char × FetchResult)) :
    Except PyErr (List Row × List (List Char)) := do
  let rw ← process_all items
  let ranked ← rank_rows rw.1
  .ok (ranked, rw.2)

/-- The whole body of `if ac_input:` (lines 50-107 of app.py) for a non-empty
input string, with the network modelled as a function from identifier to
`FetchResult`: parse, fetch+aggregate each identifier, rank. -/
def run_app (input : List Char) (fetch : List Char → FetchResult) :
    Except PyErr (List Row × List (List Char)) :=
  run_items ((ac_list input).map (fun ac => (ac, fetch ac)))

/-! The default sort behind `sort_values` (numpy argsort, kind "quicksort").

pandas' `sort_values(by=..., ascending=True)` computes
`np.argsort(column, kind="quicksort")` and takes the rows in that index
order.  numpy's "quicksort" is the introsort of
`numpy/core/src/npysort/quicksort.c.src` (`npy_aquicksort`): median-of-three
quicksort over an index array, switching to an indirect insertion sort on
segments of at most 16 elements (`SMALL_QUICKSORT = 15` compares `pr - pl`),
and to an indirect heapsort (`npy_aheapsort`) when the partition budget
`2 * npy_get_msb(num)` is exhausted.  The machine below is a direct
translation: `t` is the index array `tosort`, value comparisons are strict
`<` on the (exact rational) column values, and the explicit work stack of the
C loop is kept.  Nat-valued `fuel` arguments only make the translation
structurally total; they are chosen large enough in `npArgsort` that the
algorithm's own control flow (which always terminates) is never cut off. -/

/-- Element `t[i]` of the index array (indices are always in bounds). -/
def idxGet (t : List Nat) (i : Nat) : Nat := t.getD i 0

/-- In-place update `t[i] = v` of the index array. -/
def idxSet (t : List Nat) (i v : Nat) : List Nat := t.set i v

/-- Swap `t[i]` and `t[j]` (C macro `INTP_SWAP`). -/
def idxSwap (t : List Nat) (i j : Nat) : List Nat :=
  (t.set i (idxGet t j)).set j (idxGet t i)

/-- The column value `v[t[i]]` behind index position `i`. -/
def valAt (v : List ℚ) (t : List Nat) (i : Nat) : ℚ := v.getD (idxGet t i) 0

/-- Strict comparison `LT` of the C template, on exact values. -/
def qlt (a b : ℚ) : Bool := decide (a < b)

/-- `npy_get_msb`: index of the most significant set bit. -/
def npMsb (n : Nat) : Nat := Nat.log2 n

/-- Inner shifting loop of the indirect insertion sort:
`while (pj > pl && LT(vp, v[*pk])) *pj-- = *pk--;` (structural recursion on
the decreasing position `pj`; `pk` is always `pj - 1`).  Returns the updated
index array and the final `pj`. -/
def npInsShift (v : List ℚ) (vp : ℚ) (pl : Nat) : Nat → List Nat → List Nat × Nat
  | 0, t => (t, 0)
  | pj + 1, t =>
    if pl < pj + 1 && qlt vp (valAt v t pj) then
      npInsShift v vp pl pj (idxSet t (pj + 1) (idxGet t pj))
    else (t, pj + 1)

/-- Body iterations of the indirect insertion sort, counted down by the
first argument while `pi` walks up. -/
def npInsSteps (v : List ℚ) (pl : Nat) : Nat → Nat → List Nat → List Nat
  | 0, _, t => t
  | n + 1, pi, t =>
    let vi := idxGet t pi
    let vp := v.getD vi 0
    let s := npInsShift v vp pl pi t
    npInsSteps v pl n (pi + 1) (idxSet s.1 s.2 vi)

/-- The indirect insertion sort `for (pi = pl + 1; pi <= pr; ++pi) ...` (the
small-segment branch of `npy_aquicksort`): `pr - pl` iterations starting at
`pi = pl + 1`. -/
def npInsLoop (v : List ℚ) (pl pr : Nat) (t : List Nat) : List Nat :=
  npInsSteps v pl (pr - pl) (pl + 1) t

/-- Left partition scan `do ++pi; while (LT(v[*pi], vp));`:
position of the first element from `pi + 1` on that is not below the pivot.
The pivot parked at `pr - 1` bounds the scan; `fuel` only makes the scan
total. -/
def npScanUp (v : List ℚ) (vp : ℚ) (t : List Nat) (pi : Nat) : Nat → Nat
  | 0 => pi + 1
  | fuel + 1 =>
    if qlt (valAt v t (pi + 1)) vp = true then npScanUp v vp t (pi + 1) fuel
    else pi + 1

/-- Right partition scan `do --pj; while (LT(vp, v[*pj]));`. -/
def npScanDown (v : List ℚ) (vp : ℚ) (t : List Nat) (pj : Nat) : Nat → Nat
  | 0 => pj - 1
  | fuel + 1 =>
    if qlt vp (valAt v t (pj - 1)) = true then npScanDown v vp t (pj - 1) fuel
    else pj - 1

/-- Hoare partition loop of `npy_aquicksort`: scan from both ends, swap,
repeat until the scans cross; returns the updated index array and the
crossing position `pi`. -/
def npPartLoop (v : List ℚ) (vp : ℚ) (pi pj : Nat) (t : List Nat) :
    Nat → List Nat × Nat
  | 0 => (t, pi)
  | fuel + 1 =>
    let pi2 := npScanUp v vp t pi t.length
    let pj2 := npScanDown v vp t pj t.length
    if pi2 ≥ pj2 then (t, pi2)
    else npPartLoop v vp pi2 pj2 (idxSwap t pi2 pj2) fuel

/-- Sift step shared by both heapsort phases (`npy_aheapsort` uses 1-based
positions `a = tosort - 1` over the segment starting at `pl`; `hsGet`/`hsSet`
below translate).  Returns the updated array and the final hole position. -/
def hsGet (t : List Nat) (pl k : Nat) : Nat := idxGet t (pl + k - 1)

/-- Heapsort segment update at 1-based position `k`. -/
def hsSet (t : List Nat) (pl k v : Nat) : List Nat := idxSet t (pl + k - 1) v

/-- Heapsort sift-down: walk the hole at `i` down while the moved element
`tmp` is below a child, doubling `j`. -/
def npSift (v : List ℚ) (pl tmp n : Nat) : Nat → Nat → Nat → List Nat → List Nat × Nat
  | 0, i, _, t => (t, i)
  | fuel + 1, i, j, t =>
    if j ≤ n then
      let j2 :=
        if j < n && qlt (v.getD (hsGet t pl j) 0) (v.getD (hsGet t pl (j + 1)) 0)
        then j + 1 else j
      if qlt (v.getD tmp 0) (v.getD (hsGet t pl j2) 0) = true then
        npSift v pl tmp n fuel j2 (2 * j2) (hsSet t pl i (hsGet t pl j2))
      else (t, i)
    else (t, i)

/-- Heap construction phase of `npy_aheapsort` (`l` runs from `n / 2` down
to 1). -/
def npHeapBuild (v : List ℚ) (pl n : Nat) : Nat → List Nat → List Nat
  | 0, t => t
  | l + 1, t =>
    let tmp := hsGet t pl (l + 1)
    let s := npSift v pl tmp n (n + 2) (l + 1) (2 * (l + 1)) t
    npHeapBuild v pl n l (hsSet s.1 pl s.2 tmp)

/-- Extraction phase of `npy_aheapsort` (`m` runs from `n` down to 2; the
first argument counts the remaining iterations for structural recursion). -/
def npHeapExtract (v : List ℚ) (pl : Nat) : Nat → Nat → List Nat → List Nat
  | 0, _, t => t
  | k + 1, m, t =>
    if 1 < m then
      let tmp := hsGet t pl m
      let t1 := hsSet t pl m (hsGet t pl 1)
      let s := npSift v pl tmp (m - 1) (m + 2) 1 2 t1
      npHeapExtract v pl k (m - 1) (hsSet s.1 pl s.2 tmp)
    else t

/-- `npy_aheapsort` on the segment `[pl, pr]` of the index array. -/
def npAheapsort (v : List ℚ) (pl pr : Nat) (t : List Nat) : List Nat :=
  let n := pr + 1 - pl
  npHeapExtract v pl n n (npHeapBuild v pl n (n / 2) t)

/-- Main loop of `npy_aquicksort` as a step machine: current segment
`[pl, pr]`, remaining partition budget `cdepth`, explicit work stack.  Each
step either partitions (median-of-three pivot, Hoare scans, push the larger
side), insertion sorts a small segment and pops, or heapsorts when the budget
is spent and pops. -/
def npAqsort (v : List ℚ) :
    Nat → Int → Nat → Nat → List (Nat × Nat) → List Nat → List Nat
  | 0, _, _, _, _, t => t
  | fuel + 1, cdepth, pl, pr, stack, t =>
    if pr - pl > 15 then
      if cdepth < 0 then
        let t1 := npAheapsort v pl pr t
        match stack with
        | [] => t1
        | (a, b) :: s => npAqsort v fuel cdepth a b s t1
      else
        let pm := pl + (pr - pl) / 2
        let t1 := if qlt (valAt v t pm) (valAt v t pl) = true then idxSwap t pm pl else t
        let t2 := if qlt (valAt v t1 pr) (valAt v t1 pm) = true then idxSwap t1 pr pm else t1
        let t3 := if qlt (valAt v t2 pm) (valAt v t2 pl) = true then idxSwap t2 pm pl else t2
        let vp := valAt v t3 pm
        let t4 := idxSwap t3 pm (pr - 1)
        let part := npPartLoop v vp pl (pr - 1) t4 t4.length
        let t5 := idxSwap part.1 part.2 (pr - 1)
        let pi := part.2
        if pi - pl < pr - pi then
          npAqsort v fuel (cdepth - 1) pl (pi - 1) ((pi + 1, pr) :: stack) t5
        else
          npAqsort v fuel (cdepth - 1) (pi + 1) pr ((pl, pi - 1) :: stack) t5
    else
      let t1 := npInsLoop v pl pr t
      match stack with
      | [] => t1
      | (a, b) :: s => npAqsort v fuel cdepth a b s t1

/-- `np.argsort(v, kind="quicksort")`: sort the identity index array by the
values of `v`.  Fuel `2 * n + 4` covers the machine's own control flow: each
partition step pays one fuel and there are fewer than `n` partitions, and
each pop pays one fuel with at most one stack entry per partition. -/
def npArgsort (v : List ℚ) : List Nat :=
  npAqsort v (2 * v.length + 4) (2 * (npMsb v.length : Int)) 0 (v.length - 1)
    [] (List.range v.length)

/-- Lines 103-104 of app.py with `sort_values`' index ordering taken from
numpy's actual default quicksort (`npArgsort`) instead of the small-table
insertion-sort model of `rank_rows`.  This is the tie-order-accurate model
for tables of more than 16 rows. -/
def rank_rows_np (rows : List Row) : Except PyErr (List Row) :=
  if rows.isEmpty then .error .keyError
  else
    let kept := rows.filter (fun r => r.ratioValue.isSome)
    .ok ((npArgsort (kept.map ratioKey)).map (fun i => kept.getD i default))

/-! Helper lemmas about the Python string primitives. -/

theorem dropWhile_dropWhile (p : Char → Bool) (l : List Char) :
    (l.dropWhile p).dropWhile p = l.dropWhile p := by
  induction l with
  | nil => rfl
  | cons c rest ih =>
    by_cases h : p c
    · simp [List.dropWhile_cons, h, ih]
    · simp [List.dropWhile_cons, h]

theorem length_dropWhile_le (p : Char → Bool) (rest : List Char) :
    (rest.dropWhile p).length ≤ rest.length := by
  induction rest with
  | nil => simp
  | cons c cs ih =>
    rw [List.dropWhile_cons]
    by_cases h : p c
    · simp only [if_pos h]
      exact le_trans ih (by simp)
    · simp [if_neg h]

theorem dropWhile_head_false (p : Char → Bool) (c : Char) (rest : List Char)
    (h : (c :: rest).dropWhile p = c :: rest) : p c = false := by
  by_contra hc
  rw [Bool.not_eq_false] at hc
  rw [List.dropWhile_cons, if_pos hc] at h
  have h1 : (rest.dropWhile p).length ≤ rest.length := length_dropWhile_le p rest
  have h2 := congrArg List.length h
  simp at h2
  omega

theorem exists_append_dropWhile (p : Char → Bool) (l : List Char) :
    ∃ s, s ++ l.dropWhile p = l := by
  induction l with
  | nil => exact ⟨[], rfl⟩
  | cons c rest ih =>
    by_cases h : p c
    · obtain ⟨s, hs⟩ := ih
      exact ⟨c :: s, by simp [List.dropWhile_cons, h, hs]⟩
    · exact ⟨[], by simp [List.dropWhile_cons, h]⟩

theorem pyStrip_idem (l : List Char) : pyStrip (pyStrip l) = pyStrip l := by
  unfold pyStrip
  set A := l.dropWhile pySpace with hAdef
  have hA : A.dropWhile pySpace = A := by rw [hAdef]; exact dropWhile_dropWhile pySpace l
  set B := A.reverse.dropWhile pySpace with hBdef
  have hBB : B.dropWhile pySpace = B := by rw [hBdef]; exact dropWhile_dropWhile pySpace A.reverse
  have key1 : B.reverse.dropWhile pySpace = B.reverse := by
    cases hBr : B.reverse with
    | nil => rfl
    | cons c t =>
      obtain ⟨s, hs⟩ := exists_append_dropWhile pySpace A.reverse
      rw [← hBdef] at hs
      have hA2 : B.reverse ++ s.reverse = A := by
        have h3 := congrArg List.reverse hs
        simpa using h3
      rw [hBr] at hA2
      have hphead : pySpace c = false := by
        apply dropWhile_head_false pySpace c (t ++ s.reverse)
        have h4 : A.dropWhile pySpace = A := hA
        rw [← hA2] at h4
        simpa using h4
      simp [List.dropWhile_cons, hphead]
  rw [key1, List.reverse_reverse, hBB]

theorem pyStrip_eq_nil_of_space (l : List Char) (h : ∀ c ∈ l, pySpace c = true) :
    pyStrip l = [] := by
  unfold pyStrip
  rw [List.dropWhile_eq_nil_iff.mpr h]
  rfl

/-- Every character of every piece of `pySplitComma` comes from the input
(or from the accumulator) and is not a comma. -/
theorem mem_splitCommaAux (s : List Char) (acc piece : List Char) (c : Char)
    (hp : piece ∈ pySplitCommaAux s acc) (hc : c ∈ piece) :
    (c ∈ s ∧ c ≠ ',') ∨ c ∈ acc := by
  induction s generalizing acc with
  | nil =>
    simp [pySplitCommaAux] at hp
    subst hp
    right
    simpa using hc
  | cons d rest ih =>
    by_cases hd : d = ','
    · rw [pySplitCommaAux, if_pos hd] at hp
      rcases List.mem_cons.mp hp with hp1 | hp2
      · subst hp1
        right
        simpa using hc
      · rcases ih [] hp2 with ⟨hcr, hcc⟩ | hf
        · exact Or.inl ⟨List.mem_cons_of_mem d hcr, hcc⟩
        · cases hf
    · rw [pySplitCommaAux, if_neg hd] at hp
      rcases ih (d :: acc) hp with ⟨hcr, hcc⟩ | hacc
      · exact Or.inl ⟨List.mem_cons_of_mem d hcr, hcc⟩
      · rcases List.mem_cons.mp hacc with hcd | hca
        · subst hcd
          exact Or.inl ⟨List.mem_cons_self c rest, hd⟩
        · exact Or.inr hca

/-- Claim C4, counterexample: the identifier parser does not deduplicate;
the input string "A, A" produces the identifier "A" twice. -/
theorem C4_counterexample :
    ac_list ("A, A".toList) = ["A".toList, "A".toList] ∧
    ¬ (ac_list ("A, A".toList)).Nodup := by
  decide

/-- Claim C4 as amended: for every free-text input string, the identifier
parser returns an order-preserving (sublist of the comma pieces in order)
list of trimmed, non-empty accession identifiers; duplicates are kept. -/
theorem C4_amended (s : List Char) :
    List.Sublist (ac_list s) ((pySplitComma s).map pyStrip) ∧
    ∀ x ∈ ac_list s, x ≠ [] ∧ pyStrip x = x := by
  constructor
  · exact List.filter_sublist _
  · intro x hx
    unfold ac_list at hx
    rw [List.mem_filter] at hx
    obtain ⟨hmem, hne⟩ := hx
    refine ⟨by simpa using hne, ?_⟩
    obtain ⟨y, _, rfl⟩ := List.mem_map.mp hmem
    exact pyStrip_idem y

/-- Witness for C4_amended at the concrete input " A,B". -/
theorem C4_amended_witness : "A".toList ≠ [] ∧ pyStrip ("A".toList) = "A".toList :=
  (C4_amended (" A,B".toList)).2 ("A".toList) (by decide)

/-- Claim C5: the parser splits on commas, trims each piece, discards pieces
that are blank after trimming (so an empty or all-blank input yields no
identifiers), and keeps every remaining piece with its multiplicity (no
deduplication) in the order the pieces appear (the output is the comma-piece
sequence, trimmed, with the blank pieces removed and nothing reordered). -/
theorem C5_split_rules (s : List Char) :
    List.Sublist (ac_list s) ((pySplitComma s).map pyStrip) ∧
    (∀ x : List Char, x ≠ [] →
      (ac_list s).count x = ((pySplitComma s).map pyStrip).count x) ∧
    (∀ x ∈ ac_list s, x ≠ []) ∧
    ((∀ c ∈ s, pySpace c = true ∨ c = ',') → ac_list s = []) := by
  refine ⟨?_, ?_, ?_, ?_⟩
  · exact List.filter_sublist _
  · intro x hx
    unfold ac_list
    exact List.count_filter (by simpa using hx)
  · intro x hx
    rw [ac_list, List.mem_filter] at hx
    simpa using hx.2
  · intro hblank
    rw [ac_list, List.filter_eq_nil_iff]
    intro x hx
    obtain ⟨piece, hpiece, rfl⟩ := List.mem_map.mp hx
    have hspace : ∀ c ∈ piece, pySpace c = true := by
      intro c hc
      rcases mem_splitCommaAux s [] piece c hpiece hc with ⟨hcs, hcc⟩ | hf
      · rcases hblank c hcs with hsp | hcomma
        · exact hsp
        · exact absurd hcomma hcc
      · cases hf
    simp [pyStrip_eq_nil_of_space piece hspace]

/-- Witness for C5_split_rules at the concrete input " A,A" (duplicate kept
twice), at the all-blank input " , ", and at the single control-whitespace
input "\x1f" (Python str whitespace, so no identifier is produced). -/
theorem C5_split_rules_witness :
    (ac_list (" A,A".toList)).count ("A".toList) =
      ((pySplitComma (" A,A".toList)).map pyStrip).count ("A".toList) ∧
    ac_list (" , ".toList) = [] ∧
    ac_list ("\x1f".toList) = [] :=
  ⟨(C5_split_rules (" A,A".toList)).2.1 ("A".toList) (by decide),
   (C5_split_rules (" , ".toList)).2.2.2 (by decide),
   (C5_split_rules ("\x1f".toList)).2.2.2 (by decide)⟩

/-- Claim C6: the stored ratio is exactly count of E divided by count of Q
(no rounding, modelled in ℚ), and it is None exactly when the sequence has
no Q. -/
theorem C6_exact_ratioValue (S : List Char) :
    (S.count 'Q' ≠ 0 →
      (analyze_sequence S).ratioValue =
        some ((S.count 'E' : ℚ) / (S.count 'Q' : ℚ))) ∧
    ((analyze_sequence S).ratioValue = none ↔ S.count 'Q' = 0) := by
  constructor
  · intro h
    simp [analyze_sequence, h]
  · by_cases h : S.count 'Q' = 0 <;> simp [analyze_sequence, h]

/-- Witness for C6_exact_ratioValue at the concrete sequence "GEEQ". -/
theorem C6_exact_ratioValue_witness :
    (analyze_sequence ("GEEQ".toList)).ratioValue =
      some ((("GEEQ".toList).count 'E' : ℚ) / (("GEEQ".toList).count 'Q' : ℚ)) :=
  (C6_exact_ratioValue ("GEEQ".toList)).1 (by decide)

/-- Claim C7: the total length is exactly the character count of the input
string; characters other than the two tracked residues contribute to the
length but not to the counts (appending only untracked characters leaves the
ratio unchanged while growing the length). -/
theorem C7_total_length (S junk : List Char)
    (h : ∀ c ∈ junk, c ≠ 'E' ∧ c ≠ 'Q') :
    (analyze_sequence S).total = S.length ∧
    (analyze_sequence (S ++ junk)).total = S.length + junk.length ∧
    (analyze_sequence (S ++ junk)).ratioValue = (analyze_sequence S).ratioValue := by
  have hE : junk.count 'E' = 0 := List.count_eq_zero.mpr (fun hc => (h 'E' hc).1 rfl)
  have hQ : junk.count 'Q' = 0 := List.count_eq_zero.mpr (fun hc => (h 'Q' hc).2 rfl)
  refine ⟨rfl, by simp [analyze_sequence], ?_⟩
  simp [analyze_sequence, List.count_append, hE, hQ]

/-- Witness for C7_total_length at the concrete sequence "EQ" with appended
non-residue characters "xz*". -/
theorem C7_total_length_witness :
    (analyze_sequence ("EQ".toList)).total = ("EQ".toList).length ∧
    (analyze_sequence ("EQ".toList ++ "xz*".toList)).total =
      ("EQ".toList).length + ("xz*".toList).length ∧
    (analyze_sequence ("EQ".toList ++ "xz*".toList)).ratioValue =
      (analyze_sequence ("EQ".toList)).ratioValue :=
  C7_total_length ("EQ".toList) ("xz*".toList) (by decide)

/-- Running `pySplitlinesAux` over a boundary-free block just accumulates it. -/
theorem splitlinesAux_block (l : List Char) (rest acc : List Char)
    (h : ∀ c ∈ l, pyLineBreak c = false) :
    pySplitlinesAux (l ++ rest) acc false =
      pySplitlinesAux rest (l.reverse ++ acc) false := by
  induction l generalizing acc with
  | nil => simp
  | cons c cs ih =>
    have hc : pyLineBreak c = false := h c (List.mem_cons_self c cs)
    have hcn : c ≠ '\n' := by
      intro hceq
      rw [hceq] at hc
      simp [pyLineBreak] at hc
    rw [List.cons_append, pySplitlinesAux, if_neg (by simp [hcn]), if_neg (by simp [hc])]
    rw [ih (c :: acc) (fun d hd => h d (List.mem_cons_of_mem c hd))]
    have hacc : cs.reverse ++ (c :: acc) = (c :: cs).reverse ++ acc := by
      simp
    rw [hacc]

/-- Splitting the newline-joined list of boundary-free lines recovers the
lines, provided the last line is not empty (Python drops a trailing final
boundary). -/
theorem pySplitlines_intercalate (lines : List (List Char))
    (hnb : ∀ l ∈ lines, ∀ c ∈ l, pyLineBreak c = false)
    (hlast : lines.getLast? ≠ some []) :
    pySplitlines (List.intercalate ['\n'] lines) = lines := by
  induction lines with
  | nil => rfl
  | cons x xs ih =>
    cases xs with
    | nil =>
      have hx : x ≠ [] := by
        simpa using hlast
      have h1 : List.intercalate ['\n'] [x] = x := by
        simp [List.intercalate]
      rw [h1, pySplitlines]
      have h2 := splitlinesAux_block x [] [] (hnb x (List.mem_cons_self x []))
      rw [List.append_nil] at h2
      rw [h2, pySplitlinesAux]
      simp [hx]
    | cons y ys =>
      have h1 : List.intercalate ['\n'] (x :: y :: ys) =
          x ++ '\n' :: List.intercalate ['\n'] (y :: ys) := by
        simp [List.intercalate, List.intersperse]
      rw [h1, pySplitlines]
      rw [splitlinesAux_block x ('\n' :: List.intercalate ['\n'] (y :: ys)) []
        (hnb x (List.mem_cons_self x (y :: ys)))]
      rw [pySplitlinesAux]
      rw [if_neg (by simp), if_pos (by simp [pyLineBreak])]
      have hxs := ih (fun l hl => hnb l (List.mem_cons_of_mem x hl))
        (by rwa [List.getLast?_cons_cons] at hlast)
      rw [pySplitlines] at hxs
      rw [show (('\n' : Char) = '\r' : Bool) = false from by decide]
      rw [hxs]
      simp

/-- Claim C8: in the Found case the analyzed sequence is built by dropping
every line that begins with the marker character and concatenating the
remaining lines in order, each with surrounding whitespace trimmed.  The raw
fetched text is presented as its newline-joined lines. -/
theorem C8_sequence_assembly (lines : List (List Char))
    (hnb : ∀ l ∈ lines, ∀ c ∈ l, pyLineBreak c = false)
    (hlast : lines.getLast? ≠ some []) :
    extract_sequence (List.intercalate ['\n'] lines) =
      ((lines.filter (fun l => !startsGt l)).map pyStrip).flatten := by
  unfold extract_sequence
  rw [pySplitlines_intercalate lines hnb hlast]

/-- Witness for C8_sequence_assembly on a concrete three-line FASTA text with
a header line and two padded sequence lines. -/
theorem C8_sequence_assembly_witness :
    extract_sequence
      (List.intercalate ['\n'] [">sp|P1|X".toList, " MEQ ".toList, "QE".toList]) =
      (([">sp|P1|X".toList, " MEQ ".toList, "QE".toList].filter
          (fun l => !startsGt l)).map pyStrip).flatten :=
  C8_sequence_assembly [">sp|P1|X".toList, " MEQ ".toList, "QE".toList]
    (by decide) (by decide)

/-- A fetch outcome in which the sequence request failed outright. -/
def wNotFound : FetchResult :=
  { fastaStatus := 404, fastaText := [], metaStatus := 404, metaJson := .dict [] }

/-- Claim C10: an identifier is treated as Found exactly when the FASTA
response has status 200 and its text contains the marker character; in every
other case (including a 200 response without the marker) the identifier gets
the warning of line 100 and no row, and in the Found case it gets a row (or
an uncaught metadata exception), never that warning. -/
theorem C10_found_criterion (ac : List Char) (fr : FetchResult) :
    (¬ isFound fr → process_ac ac fr = .ok (none, some (warnMsg ac))) ∧
    (isFound fr →
      (∃ e, process_ac ac fr = .error e) ∨
      ∃ row, process_ac ac fr = .ok (some row, none)) := by
  constructor
  · intro h
    rw [process_ac, if_neg h]
  · intro h
    rw [process_ac, if_pos h]
    by_cases hms : fr.metaStatus = 200
    · rw [if_pos hms]
      cases hm : extract_metadata ac fr.metaJson with
      | error e =>
        left
        exact ⟨e, rfl⟩
      | ok v =>
        right
        exact ⟨_, rfl⟩
    · rw [if_neg hms]
      right
      exact ⟨_, rfl⟩

/-- Witness for C10_found_criterion: a 200 response without the marker gets
the NotFound warning, and a failed request the same warning. -/
theorem C10_found_criterion_witness :
    process_ac ("P1".toList)
      { fastaStatus := 200, fastaText := "no marker here".toList,
        metaStatus := 200, metaJson := .dict [] } =
      .ok (none, some (warnMsg ("P1".toList))) ∧
    process_ac ("P1".toList) wNotFound = .ok (none, some (warnMsg ("P1".toList))) :=
  ⟨(C10_found_criterion ("P1".toList) _).1 (by decide),
   (C10_found_criterion ("P1".toList) wNotFound).1 (by decide)⟩

/-- Claim C1, counterexample: a metadata record that is present (status 200)
with a "comments" list that exists but is empty makes
`data.get("comments", [{}])[0]` raise an uncaught IndexError: the identifier
produces no AnnotatedResult and the error propagates out of its processing,
contrary to the claimed sentinel recovery. -/
theorem C1_counterexample :
    process_ac ("P1".toList)
      { fastaStatus := 200, fastaText := ">sp|P1|X\nEEQ".toList,
        metaStatus := 200, metaJson := .dict [("comments".toList, .list [])] } =
      .error .indexError := by
  rfl

/-- Claim C1 as amended: when the metadata fields are missing in the sense of
absent keys (here: no "proteinDescription" and no "comments" key), sentinel
values are substituted ("N/A" protein name, empty description, the accession
as fallback entry name) and the AnnotatedResult is still emitted with no
error; but a present-and-empty "comments" (or "texts") list instead raises an
uncaught IndexError (see the counterexample). -/
theorem C1_sentinel_recovery (ac : List Char) (fr : FetchResult)
    (kvs : List (List Char × PyVal))
    (hfound : isFound fr) (hms : fr.metaStatus = 200) (hjson : fr.metaJson = .dict kvs)
    (hpd : lookupKey kvs ("proteinDescription".toList) = none)
    (hcm : lookupKey kvs ("comments".toList) = none) :
    process_ac ac fr = .ok (some
      { entryName := (lookupKey kvs ("uniProtkbId".toList)).getD (.str ac)
        proteinName := .str ("N/A".toList)
        description := .str []
        lengthAA := (analyze_sequence (extract_sequence fr.fastaText)).total
        percE := (analyze_sequence (extract_sequence fr.fastaText)).percE
        percQ := (analyze_sequence (extract_sequence fr.fastaText)).percQ
        ratioValue := (analyze_sequence (extract_sequence fr.fastaText)).ratioValue
        uniprotLink :=
          "https://www.uniprot.org/uniprotkb/".toList ++ ac ++ "/entry".toList },
      none) := by
  have hmeta : extract_metadata ac fr.metaJson =
      .ok ((lookupKey kvs ("uniProtkbId".toList)).getD (.str ac),
        .str ("N/A".toList), .str []) := by
    rw [hjson]
    simp only [extract_metadata, pyGet, hpd, hcm, Option.getD_none]
    rfl
  rw [process_ac, if_pos hfound, if_pos hms, hmeta]
  rfl

/-- Metadata fixture for the C1 witness: only "uniProtkbId" is present. -/
def wMetaKvs : List (List Char × PyVal) :=
  [("uniProtkbId".toList, .str ("HBB_HUMAN".toList))]

/-- Fetch fixture for the C1 witness. -/
def wFoundFetch : FetchResult :=
  { fastaStatus := 200, fastaText := ">sp|P1|X\nEEQ".toList,
    metaStatus := 200, metaJson := .dict wMetaKvs }

/-- Witness for C1_sentinel_recovery: a metadata record carrying only
"uniProtkbId" yields a row with the sentinel protein name and description. -/
theorem C1_sentinel_recovery_witness :
    process_ac ("P1".toList) wFoundFetch =
      .ok (some
        { entryName := (lookupKey wMetaKvs ("uniProtkbId".toList)).getD (.str ("P1".toList))
          proteinName := .str ("N/A".toList)
          description := .str []
          lengthAA := (analyze_sequence (extract_sequence wFoundFetch.fastaText)).total
          percE := (analyze_sequence (extract_sequence wFoundFetch.fastaText)).percE
          percQ := (analyze_sequence (extract_sequence wFoundFetch.fastaText)).percQ
          ratioValue := (analyze_sequence (extract_sequence wFoundFetch.fastaText)).ratioValue
          uniprotLink := "https://www.uniprot.org/uniprotkb/".toList ++ "P1".toList
            ++ "/entry".toList },
        none) :=
  C1_sentinel_recovery ("P1".toList) wFoundFetch wMetaKvs (by decide) rfl rfl rfl rfl

/-- Claim C9, counterexample: with a single identifier whose fetch is
NotFound, the loop yields no rows and one warning, but the run does not reach
Presenting with an empty table: building the empty DataFrame makes `dropna`
raise KeyError, so the run as a whole fails. -/
theorem C9_counterexample :
    process_all [("P69905".toList, wNotFound)] =
      .ok ([], [warnMsg ("P69905".toList)]) ∧
    run_app ("P69905".toList) (fun _ => wNotFound) = .error .keyError := by
  constructor
  · rfl
  · rfl

/-- Claim C9 as amended: a NotFound identifier contributes no row and exactly
one warning, and leaves the processing of all remaining identifiers exactly
as it would have been without it; the run then reaches Ranking/Presenting
whenever the loop finishes without an uncaught exception and at least one row
was produced (with zero rows, pandas raises KeyError on the missing ratio
column, so an all-failed run does not reach Presenting). -/
theorem C9_notfound_containment (ac : List Char) (fr : FetchResult)
    (rest : List (List Char × FetchResult)) (hnf : ¬ isFound fr) :
    process_all ((ac, fr) :: rest) =
      (process_all rest).map (fun p => (p.1, warnMsg ac :: p.2)) ∧
    ∀ items rows ws, process_all items = .ok (rows, ws) → rows ≠ [] →
      ∃ ranked, run_items items = .ok (ranked, ws) := by
  constructor
  · have hstep : process_ac ac fr = .ok (none, some (warnMsg ac)) := by
      rw [process_ac, if_neg hnf]
    cases hrest : process_all rest with
    | error e =>
      simp [process_all, hstep, hrest, Bind.bind, Except.bind, Except.map]
    | ok p =>
      simp [process_all, hstep, hrest, Bind.bind, Except.bind, Except.map]
  · intro items rows ws hall hrows
    refine ⟨List.insertionSort rowLe (rows.filter (fun r => r.ratioValue.isSome)), ?_⟩
    rw [run_items]
    simp [hall, Bind.bind, Except.bind, rank_rows, hrows]

/-- Witness for C9_notfound_containment: one NotFound identifier followed by
one Found identifier with full metadata absent. -/
theorem C9_notfound_containment_witness :
    process_all [("P68871".toList, wNotFound),
      ("P69905".toList,
        { fastaStatus := 200, fastaText := ">sp\nEEQ".toList,
          metaStatus := 404, metaJson := .dict [] })] =
      (process_all [("P69905".toList,
        { fastaStatus := 200, fastaText := ">sp\nEEQ".toList,
          metaStatus := 404, metaJson := .dict [] })]).map
        (fun p => (p.1, warnMsg ("P68871".toList) :: p.2)) :=
  (C9_notfound_containment ("P68871".toList) wNotFound _ (by decide)).1

/-- Claim C3: in every table the ranker returns, each adjacent pair has
defined ratios in non-decreasing order (rows with an undefined ratio were
dropped by `dropna`). -/
theorem C3_ranked_table (rows out : List Row) (h : rank_rows rows = .ok out)
    (i : Nat) (hi1 : i + 1 < out.length) :
    ∃ a b : ℚ,
      (out.get ⟨i, by omega⟩).ratioValue = some a ∧
      (out.get ⟨i + 1, hi1⟩).ratioValue = some b ∧ a ≤ b := by
  rw [rank_rows] at h
  by_cases hne : rows.isEmpty
  · rw [if_pos hne] at h
    cases h
  · rw [if_neg hne] at h
    have hout : out = List.insertionSort rowLe
        (rows.filter (fun r => r.ratioValue.isSome)) := by
      cases h
      rfl
    have hsorted : List.Sorted rowLe out := by
      rw [hout]
      exact List.sorted_insertionSort rowLe _
    have hmem : ∀ r ∈ out, r.ratioValue.isSome = true := by
      intro r hr
      rw [hout] at hr
      have := (List.mem_insertionSort rowLe).mp hr
      exact (List.mem_filter.mp this).2
    have hi : i < out.length := by omega
    obtain ⟨a, ha⟩ := Option.isSome_iff_exists.mp
      (hmem (out.get ⟨i, hi⟩) (out.get_mem _ _))
    obtain ⟨b, hb⟩ := Option.isSome_iff_exists.mp
      (hmem (out.get ⟨i + 1, hi1⟩) (out.get_mem _ _))
    refine ⟨a, b, ha, hb, ?_⟩
    have hle : rowLe (out.get ⟨i, hi⟩) (out.get ⟨i + 1, hi1⟩) :=
      List.pairwise_iff_get.mp hsorted ⟨i, hi⟩ ⟨i + 1, hi1⟩ (by simp)
    rw [rowLe, ratioKey, ratioKey, ha, hb] at hle
    simpa using hle

/-- Row fixture with a given ratio, used by the ranker witnesses. -/
def wRow (q : Option ℚ) : Row :=
  { entryName := .str [], proteinName := .str ("N/A".toList),
    description := .str [], lengthAA := 3, percE := none, percQ := none,
    ratioValue := q, uniprotLink := [] }

/-- Ranked-table fixture: the ranker output for `[wRow 2, wRow none, wRow 1]`. -/
def wOut : List Row := [wRow (some 1), wRow (some 2)]

/-- Witness for C3_ranked_table on a concrete three-row input with one
undefined ratio. -/
theorem C3_ranked_table_witness :
    ∃ a b : ℚ,
      (wOut.get ⟨0, by decide⟩).ratioValue = some a ∧
      (wOut.get ⟨1, by decide⟩).ratioValue = some b ∧ a ≤ b :=
  C3_ranked_table [wRow (some 2), wRow none, wRow (some 1)] wOut (by rfl) 0
    (by decide)

/-- Inserting a row whose ratio is `some q` puts it in front of the later
rows of the same ratio class; inserting any other row leaves the ratio-`q`
subsequence unchanged. -/
theorem filter_orderedInsert_eqkey (q : ℚ) (a : Row) (l : List Row) :
    (List.orderedInsert rowLe a l).filter (fun r => decide (r.ratioValue = some q)) =
      if a.ratioValue = some q then
        a :: l.filter (fun r => decide (r.ratioValue = some q))
      else l.filter (fun r => decide (r.ratioValue = some q)) := by
  induction l with
  | nil =>
    by_cases ha : a.ratioValue = some q <;>
      simp [List.orderedInsert, List.filter, ha]
  | cons b bs ih =>
    rw [List.orderedInsert]
    by_cases hab : rowLe a b
    · rw [if_pos hab]
      by_cases ha : a.ratioValue = some q <;>
        simp [List.filter_cons, ha]
    · rw [if_neg hab]
      by_cases ha : a.ratioValue = some q
      · have hb : ¬ b.ratioValue = some q := by
          intro hbq
          apply hab
          rw [rowLe, ratioKey, ratioKey, ha, hbq]
        rw [List.filter_cons, List.filter_cons]
        simp only [hb, decide_eq_true_eq, decide_eq_false_iff_not, if_neg hb]
        rw [ih, if_pos ha, if_pos ha]
        simp [hb]
      · rw [List.filter_cons, List.filter_cons]
        rw [ih, if_neg ha, if_neg ha]

/-- A stable-by-construction fact about the insertion sort used by
`rank_rows`: the subsequence of rows with any fixed defined ratio is exactly
the input subsequence with that ratio, in input order. -/
theorem filter_insertionSort_eqkey (q : ℚ) (l : List Row) :
    (List.insertionSort rowLe l).filter (fun r => decide (r.ratioValue = some q)) =
      l.filter (fun r => decide (r.ratioValue = some q)) := by
  induction l with
  | nil => rfl
  | cons a l ih =>
    rw [List.insertionSort, filter_orderedInsert_eqkey, ih]
    by_cases ha : a.ratioValue = some q <;> simp [List.filter_cons, ha]

/-- Claim C2 as amended: for tables of at most 16 rows (numpy's argsort runs
its stable insertion sort on segments of at most 16 positions, so there the
pandas sort is stable) the ranker preserves the input order of equal-ratio
rows: for each ratio value `q`, the ratio-`q` rows of the output are the
ratio-`q` rows of the input in input order.  For larger tables numpy's
quicksort may reorder ties (see the counterexample). -/
theorem C2_stability_small (rows out : List Row) (h : rank_rows rows = .ok out)
    (_hsmall : rows.length ≤ 16) (q : ℚ) :
    out.filter (fun r => decide (r.ratioValue = some q)) =
      rows.filter (fun r => decide (r.ratioValue = some q)) := by
  rw [rank_rows] at h
  by_cases hne : rows.isEmpty
  · rw [if_pos hne] at h
    cases h
  · rw [if_neg hne] at h
    have hout : out = List.insertionSort rowLe
        (rows.filter (fun r => r.ratioValue.isSome)) := by
      cases h
      rfl
    rw [hout, filter_insertionSort_eqkey, List.filter_filter]
    apply List.filter_congr
    intro r _
    cases hr : r.ratioValue <;> simp [hr]

/-- Witness for C2_stability_small: two rows of equal ratio stay in input
order. -/
theorem C2_stability_small_witness :
    ([wRow (some 1), wRow (some 1)].filter
        (fun r => decide (r.ratioValue = some (1 : ℚ)))) =
      ([wRow (some 1), wRow none, wRow (some 1)].filter
        (fun r => decide (r.ratioValue = some (1 : ℚ)))) :=
  C2_stability_small [wRow (some 1), wRow none, wRow (some 1)]
    [wRow (some 1), wRow (some 1)] (by rfl) (by decide) 1

/-- Row with a given entry name and ratio 1 (all counterexample rows tie). -/
def cxRow (name : List Char) : Row :=
  { entryName := .str name, proteinName := .str ("N/A".toList),
    description := .str [], lengthAA := 2, percE := some 50, percQ := some 50,
    ratioValue := some 1, uniprotLink := [] }

/-- Seventeen rows with pairwise distinct entry names and equal ratios, in
input order R00, R01, ..., R16. -/
def cxRows : List Row :=
  (["R00", "R01", "R02", "R03", "R04", "R05", "R06", "R07", "R08", "R09",
    "R10", "R11", "R12", "R13", "R14", "R15", "R16"].map
    (fun s => cxRow s.toList))

/-- Entry name of a row, as a string (the counterexample rows all carry
string entry names). -/
def rowName (r : Row) : List Char :=
  match r.entryName with
  | .str s => s
  | _ => []

/-- The entry names of `cxRows` in input order. -/
def cxInNames : List (List Char) := cxRows.map rowName

/-- The entry names in the order the numpy-backed ranker returns them. -/
def cxOutNames : List (List Char) :=
  (["R00", "R14", "R13", "R12", "R11", "R10", "R09", "R15", "R08", "R06",
    "R05", "R04", "R03", "R02", "R01", "R07", "R16"].map String.toList)

/-- Claim C2, counterexample: on seventeen rows of equal ratio (so every pair
is a tie) the ranker backed by numpy's actual default quicksort returns the
rows as a permutation that differs from input order; in particular R01
precedes R14 in the input but follows it in the output, so the sort is not
stable. -/
theorem C2_counterexample :
    (∀ r ∈ cxRows, r.ratioValue = some (1 : ℚ)) ∧
    ((rank_rows_np cxRows).map (fun out => out.map rowName)).toOption =
      some cxOutNames ∧
    cxOutNames ≠ cxInNames ∧
    List.Perm cxOutNames cxInNames ∧
    cxInNames.indexOf ("R01".toList) < cxInNames.indexOf ("R14".toList) ∧
    cxOutNames.indexOf ("R14".toList) < cxOutNames.indexOf ("R01".toList) := by
  refine ⟨by decide, by decide, by decide, by decide, by decide, by decide⟩
